import Mathlib

/-!
# Verification of the recursive folder/case aggregation and filtering layer

Shallow embedding of `src/mcp_testmo/tools/composite.py` (and the pagination
loop of `client.get_all_cases` in `src/mcp_testmo/client.py`).

Python dynamic values are modelled by `JVal` (JSON-like values without
floats), Python dicts by association lists with first-match lookup and
overwrite-or-append assignment, and the stateful `while` loops of the source
by fuel-indexed recursive functions returning `Option` (`none` models
non-termination / an uncaught exception).  Remote calls made by the tools are
recorded in an explicit event trace.
-/

namespace Testmo

/-- A JSON-like dynamic value (Python value as seen by the core). -/
inductive JVal where
  | null : JVal
  | bool (b : Bool) : JVal
  | int (n : Int) : JVal
  | str (s : String) : JVal
  | arr (xs : List JVal) : JVal
  | obj (fields : List (String × JVal)) : JVal

/-- Python truthiness of a value (`bool(v)`). -/
def jTruthy : JVal → Bool
  | .null => false
  | .bool b => b
  | .int n => n != 0
  | .str s => s != ""
  | .arr xs => !xs.isEmpty
  | .obj fs => !fs.isEmpty

/-- Is the value a Python `str`? (`isinstance(v, str)`). -/
def jIsStr : JVal → Bool
  | .str _ => true
  | _ => false

mutual
/-- Python `==` on the modelled values: `True == 1`, lists compare
pointwise, dicts compare as mappings (approximated for association lists
without duplicate keys: same length and left-to-right lookup agreement). -/
def pyEq : JVal → JVal → Bool
  | .null, .null => true
  | .bool a, .bool b => a == b
  | .bool a, .int n => (if a then (1 : Int) else 0) == n
  | .int n, .bool a => n == (if a then (1 : Int) else 0)
  | .int m, .int n => m == n
  | .str s, .str t => s == t
  | .arr xs, .arr ys => pyEqArr xs ys
  | .obj fs, .obj gs => fs.length == gs.length && pyEqFields fs gs
  | _, _ => false

def pyEqArr : List JVal → List JVal → Bool
  | [], [] => true
  | x :: xs, y :: ys => pyEq x y && pyEqArr xs ys
  | _, _ => false

def pyEqFields : List (String × JVal) → List (String × JVal) → Bool
  | [], _ => true
  | (k, v) :: fs, gs => pyLookupEq k v gs && pyEqFields fs gs

def pyLookupEq : String → JVal → List (String × JVal) → Bool
  | _, _, [] => false
  | k, v, (k2, v2) :: gs => if k == k2 then pyEq v v2 else pyLookupEq k v gs
end

/-- A Python dict with string keys, in insertion order. -/
abbrev PyDict := List (String × JVal)

/-- `d.get(k)` (first matching key; real dicts have no duplicates). -/
def dictGet (d : PyDict) (k : String) : Option JVal :=
  (d.find? (fun p => p.1 == k)).map (·.2)

/-- `d.get(k, default)`. -/
def dictGetD (d : PyDict) (k : String) (v : JVal) : JVal :=
  (dictGet d k).getD v

/-- `d[k] = v`: overwrite in place if the key exists, else append. -/
def dictSet (d : PyDict) (k : String) (v : JVal) : PyDict :=
  if d.any (fun p => p.1 == k) then
    d.map (fun p => if p.1 == k then (k, v) else p)
  else
    d ++ [(k, v)]

/-- A test case record (`case` dicts flowing through the tools). -/
abbrev Case := PyDict

/-- A folder record: `{id, name, parent_id}` with `parent_id = none`
modelling JSON `null`/absent (the spec's data model, §3). -/
structure Folder where
  id : Int
  name : String
  parent_id : Option Int
  deriving DecidableEq, Repr

/-- Normalized parent id: `f.get("parent_id") or 0` (None/0 ↦ 0). -/
def Folder.pid (f : Folder) : Int :=
  f.parent_id.getD 0

/-- Ordered list of direct-child ids of `p`, as built by the
`children_map` loop of `_collect_subtree` (`defaultdict` append order). -/
def childrenOf (folders : List Folder) (p : Int) : List Int :=
  (folders.filter (fun f => f.pid == p)).map (·.id)

/-- `{f["id"]: f for f in all_folders}` as a lookup (later entries win),
i.e. `_build_folder_map`. -/
def folderMap (folders : List Folder) : Int → Option Folder :=
  fun i => folders.reverse.find? (fun f => f.id == i)

/-- `result.add(c)` on a Python set modelled as a duplicate-free list:
append the element when absent. -/
def setAdd (r : List Int) (c : Int) : List Int :=
  if c ∈ r then r else r ++ [c]

/-- One run of the `while stack:` loop of `_collect_subtree`, with fuel
(the Python loop diverges on cyclic parent data).  The list head is the
stack top; children are pushed so that pops happen in the same order as
Python's `list.append`/`list.pop`.  `result.add` / `stack.append` of the
inner `for` are modelled by a fold over the children list. -/
def subtreeLoop (cm : Int → List Int) : Nat → List Int → List Int → Option (List Int)
  | _, result, [] => some result
  | 0, _, _ :: _ => none
  | fuel + 1, result, current :: stack =>
      subtreeLoop cm fuel
        ((cm current).foldl setAdd result)
        ((cm current).reverse ++ stack)

/-- `_collect_subtree(all_folders, root_id)` with fuel; the returned list
is the set's contents (duplicate-free by construction). -/
def collectSubtreeF (folders : List Folder) (rootId : Int) (fuel : Nat) :
    Option (List Int) :=
  subtreeLoop (childrenOf folders) fuel [rootId] [rootId]

/-- `sorted(...)` over integers, as a structural insertion sort. -/
def insertSorted (x : Int) : List Int → List Int
  | [] => [x]
  | y :: ys => if x ≤ y then x :: y :: ys else y :: insertSorted x ys

/-- Ascending `sorted(xs)`. -/
def sortInts (l : List Int) : List Int :=
  l.foldr insertSorted []

/-- Reachability along a child-listing function: `b` is reachable from `a`
by following parent→child edges. -/
def ReachRel (cm : Int → List Int) (a b : Int) : Prop :=
  Relation.ReflTransGen (fun x y => y ∈ cm x) a b

/-- Reachability from `a` by following parent→child edges of the
(normalized) folder list. -/
def ReachF (folders : List Folder) (a b : Int) : Prop :=
  ReachRel (childrenOf folders) a b

/-- The `while parent_id and parent_id in folder_map:` loop of
`_get_folder_path`, with fuel (diverges on cyclic parent chains).
`parts` accumulates `path_parts`; names are prepended as by
`path_parts.insert(0, ...)`. -/
def pathLoopF (fm : Int → Option Folder) : Nat → Option Int → List String → Option (List String)
  | fuel, pid, parts =>
    match pid with
    | none => some parts
    | some p =>
      if p = 0 then some parts
      else
        match fm p with
        | none => some parts
        | some parent =>
          match fuel with
          | 0 => none
          | fuel' + 1 => pathLoopF fm fuel' parent.parent_id (parent.name :: parts)

/-- `_get_folder_path(folder_id, folder_map)` with fuel. -/
def getFolderPathF (pfuel : Nat) (fm : Int → Option Folder) (folderId : Int) :
    Option String :=
  match fm folderId with
  | none => some ""
  | some folder =>
    (pathLoopF fm pfuel folder.parent_id [folder.name]).map (String.intercalate " / ")

/-- A node of the nested tree built by `_build_folder_tree`: the spread
folder fields, the `full_path` string and the `children` list. -/
inductive TreeNode where
  | node (folder : Folder) (full_path : String) (children : List TreeNode)

/-- The folder record carried by a tree node. -/
def TreeNode.folder : TreeNode → Folder
  | .node f _ _ => f

/-- The `full_path` field of a tree node. -/
def TreeNode.fullPath : TreeNode → String
  | .node _ p _ => p

/-- The `children` list of a tree node. -/
def TreeNode.children : TreeNode → List TreeNode
  | .node _ _ c => c

mutual
/-- All nodes of a tree (the node itself and, recursively, its children). -/
def TreeNode.allNodes : TreeNode → List TreeNode
  | .node f p cs => .node f p cs :: allNodesList cs

/-- All nodes of a forest. -/
def allNodesList : List TreeNode → List TreeNode
  | [] => []
  | t :: ts => t.allNodes ++ allNodesList ts
end

/-- The `children_map` of `_build_folder_tree`: folders of the subtree set
grouped by normalized parent id, in list order. -/
def treeChildrenOf (folders : List Folder) (subtreeIds : List Int) (k : Int) :
    List Folder :=
  folders.filter (fun f => decide (f.id ∈ subtreeIds) && f.pid == k)

mutual
/-- The recursive `build_node` of `_build_folder_tree`, with fuel (the
Python recursion is unbounded on cyclic data; fuel decreases at every
recursive call so that the definition is structural and computes). -/
def buildNodeF (folders : List Folder) (st : List Int) (fm : Int → Option Folder)
    (pfuel : Nat) : Nat → Folder → Option TreeNode
  | 0, _ => none
  | fuel + 1, folder =>
    match getFolderPathF pfuel fm folder.id with
    | none => none
    | some fp =>
      match buildNodesF folders st fm pfuel fuel (treeChildrenOf folders st folder.id) with
      | none => none
      | some cs => some (.node folder fp cs)

/-- `[build_node(child) for child in ...]` over a list of folders. -/
def buildNodesF (folders : List Folder) (st : List Int) (fm : Int → Option Folder)
    (pfuel : Nat) : Nat → List Folder → Option (List TreeNode)
  | _, [] => some []
  | 0, _ :: _ => none
  | fuel + 1, f :: fs =>
    match buildNodeF folders st fm pfuel fuel f with
    | none => none
    | some t =>
      match buildNodesF folders st fm pfuel fuel fs with
      | none => none
      | some ts => some (t :: ts)
end

/-- `_build_folder_tree(all_folders, subtree_ids, root_id, folder_map)`:
the inner `some` is the Python return value (`none` there is Python's
`None`), the outer `Option` is fuel exhaustion. -/
def buildFolderTreeF (folders : List Folder) (st : List Int)
    (fm : Int → Option Folder) (rootId : Int) (pfuel fuel : Nat) :
    Option (Option TreeNode) :=
  match fm rootId with
  | none => some none
  | some f => (buildNodeF folders st fm pfuel fuel f).map some

/-! ## Compound filter engine (`_apply_client_filters`) -/

/-- Python substring test `needle in hay` on character lists. -/
def subOf (needle : List Char) : List Char → Bool
  | [] => needle.isEmpty
  | h :: t => needle.isPrefixOf (h :: t) || subOf needle t

/-- Case-insensitive substring test: `needle.lower() in hay.lower()`
(ASCII lowering, applied per character). -/
def containsCI (hay needle : String) : Bool :=
  subOf (needle.data.map Char.toLower) (hay.data.map Char.toLower)

/-- One iteration of the `for k, v in custom_filters.items():` loop body of
`_match_custom`: does the case pass the single entry `(k, v)`? -/
def matchCustomEntry (matchMode : String) (c : Case) (k : String) (v : JVal) : Bool :=
  let caseVal := dictGetD c k .null
  if matchMode == "contains" && jIsStr v then
    match caseVal, v with
    | .str cs, .str vs => containsCI cs vs
    | _, _ => false
  else
    pyEq caseVal v

/-- `_match_custom(case)`. -/
def matchCustom (customFilters : List (String × JVal)) (matchMode : String)
    (c : Case) : Bool :=
  customFilters.all (fun kv => matchCustomEntry matchMode c kv.1 kv.2)

/-- One entry of `_match_arrays`: the case's field must be a list holding
at least one acceptable value (Python `in` membership, i.e. `==`). -/
def matchArrayEntry (c : Case) (k : String) (vals : List JVal) : Bool :=
  match dictGetD c k .null with
  | .arr xs => vals.any (fun fv => xs.any (fun x => pyEq fv x))
  | _ => false

/-- `_match_arrays(case)`. -/
def matchArrays (arrayFilters : List (String × List JVal)) (c : Case) : Bool :=
  arrayFilters.all (fun kv => matchArrayEntry c kv.1 kv.2)

/-- `_match_issue(case)`: `case.get("issues", [])` must be a list with an
entry (a dict) whose `display_id` equals the issue key. -/
def matchIssue (issueKey : String) (c : Case) : Bool :=
  match (dictGet c "issues").getD (.arr []) with
  | .arr xs =>
    xs.any (fun iss =>
      match iss with
      | .obj fs => pyEq (dictGetD fs "display_id" .null) (.str issueKey)
      | _ => false)
  | _ => false

/-- Truthiness of an optional filter dict argument (`if custom_filters:`):
`None` and the empty dict are falsy. -/
def suppliedDict {α : Type} (o : Option (List α)) : Bool :=
  match o with
  | none => false
  | some l => !l.isEmpty

/-- Truthiness of the optional issue key (`if issue_key:`). -/
def suppliedKey (o : Option String) : Bool :=
  match o with
  | none => false
  | some s => s != ""

/-- The `if custom_filters:` narrowing pass of `_apply_client_filters`
(skipped when the argument is `None` or the empty dict). -/
def customStage (customFilters : Option (List (String × JVal))) (matchMode : String)
    (result : List Case) : List Case :=
  match customFilters with
  | some cf => if !cf.isEmpty then result.filter (matchCustom cf matchMode) else result
  | none => result

/-- The `if array_filters:` narrowing pass. -/
def arrayStage (arrayFilters : Option (List (String × List JVal)))
    (result : List Case) : List Case :=
  match arrayFilters with
  | some af => if !af.isEmpty then result.filter (matchArrays af) else result
  | none => result

/-- The `if issue_key:` narrowing pass. -/
def issueStage (issueKey : Option String) (result : List Case) : List Case :=
  match issueKey with
  | some key => if key != "" then result.filter (matchIssue key) else result
  | none => result

/-- `_apply_client_filters(cases, custom_filters, match_mode,
array_filters, issue_key)`: three successive narrowing passes, each run
only when its argument is truthy. -/
def applyClientFilters (cases : List Case)
    (customFilters : Option (List (String × JVal))) (matchMode : String)
    (arrayFilters : Option (List (String × List JVal)))
    (issueKey : Option String) : List Case :=
  issueStage issueKey (arrayStage arrayFilters (customStage customFilters matchMode cases))

/-- Spec-side predicate: the case passes the `custom_filters` stage
(pass-through when the filter is not supplied). -/
def passCustom (customFilters : Option (List (String × JVal))) (matchMode : String)
    (c : Case) : Bool :=
  match customFilters with
  | none => true
  | some cf => if cf.isEmpty then true else matchCustom cf matchMode c

/-- Spec-side predicate: the case passes the `array_filters` stage. -/
def passArrays (arrayFilters : Option (List (String × List JVal))) (c : Case) : Bool :=
  match arrayFilters with
  | none => true
  | some af => if af.isEmpty then true else matchArrays af c

/-- Spec-side predicate: the case passes the `issue_key` stage. -/
def passIssue (issueKey : Option String) (c : Case) : Bool :=
  match issueKey with
  | none => true
  | some key => if key = "" then true else matchIssue key c

/-! ## Remote calls, traces and the pagination walker -/

/-- One page of a paginated remote response:
`{result: [...], next_page: int|null}` (a `none` `next_page` models JSON
`null` or an absent key). -/
structure PageResult where
  result : List Case
  next_page : Option Int

/-- Observable events of a tool run: remote calls and rate-limit sleeps. -/
inductive Ev where
  | listFolders
  | listCasesPage (folderId : Option Int) (page : Nat)
  | searchPage (folderId : Option Int) (page : Nat)
  | sleep
  deriving DecidableEq

/-- The shared `while True:` pagination loop of `client.get_all_cases` and
`_search_paginated` (the spec's Pagination Walker, §4.1): request `page`,
concatenate `result`, stop when `next_page` is null/absent, else sleep and
continue with `page + 1`.  Fuel-indexed; `none` is non-termination. -/
def paginateLoop (fetch : Nat → PageResult) (reqEv : Nat → Ev) :
    Nat → Nat → List Case → List Ev → Option (List Case × List Ev)
  | 0, _, _, _ => none
  | fuel + 1, page, acc, tr =>
    let r := fetch page
    let acc2 := acc ++ r.result
    let tr2 := tr ++ [reqEv page]
    match r.next_page with
    | none => some (acc2, tr2)
    | some _ => paginateLoop fetch reqEv fuel (page + 1) acc2 (tr2 ++ [Ev.sleep])

/-- The remote environment a tool run sees: the project's folder list and
the per-(folder, page) responses of the case-listing and case-search
endpoints (query/tags/state_id are fixed for the run and folded into
`searchPages`). -/
structure Env where
  folders : List Folder
  casesPages : Option Int → Nat → PageResult
  searchPages : Option Int → Nat → PageResult

/-- `client.get_all_cases(project_id, folder_id)` driven by the walker. -/
def getAllCasesF (env : Env) (fid : Option Int) (fuel : Nat) :
    Option (List Case × List Ev) :=
  paginateLoop (env.casesPages fid) (fun p => .listCasesPage fid p) fuel 1 [] []

/-- `_search_paginated(client, project_id, query, folder_id, tags, state_id)`. -/
def searchPaginatedF (env : Env) (fid : Option Int) (fuel : Nat) :
    Option (List Case × List Ev) :=
  paginateLoop (env.searchPages fid) (fun p => .searchPage fid p) fuel 1 [] []

/-- The expected trace of a walker run of `k` pages starting at `p`:
requests with a sleep between consecutive ones, none after the last. -/
def walkTrace (reqEv : Nat → Ev) : Nat → Nat → List Ev
  | _, 0 => []
  | p, 1 => [reqEv p]
  | p, k + 2 => reqEv p :: Ev.sleep :: walkTrace reqEv (p + 1) (k + 1)

/-! ## The composite tools -/

/-- The `{"error": ...}` value returned when the root folder is unknown. -/
def errObj (projectId folderId : Int) : JVal :=
  .obj [("error", .str ("Folder " ++ toString folderId ++ " not found in project "
    ++ toString projectId))]

/-- The `for fid in sorted(subtree_ids):` loop of `get_cases_recursive`:
fetch all cases of the folder, annotate, record a summary entry for
non-empty folders, and sleep whenever the subtree has more than one
member (`nSub = len(subtree_ids)`). -/
def gcrLoop (env : Env) (fm : Int → Option Folder) (includePath : Bool) (nSub : Nat)
    (pfuel pagFuel : Nat) :
    List Int → List Case → List JVal → List Ev → Option (List Case × List JVal × List Ev)
  | [], accCases, accSum, tr => some (accCases, accSum, tr)
  | fid :: rest, accCases, accSum, tr =>
    match getAllCasesF env (some fid) pagFuel with
    | none => none
    | some (cases, ptr) =>
      let folderName := match fm fid with | some f => f.name | none => toString fid
      match (if includePath then (getFolderPathF pfuel fm fid).map some else some none) with
      | none => none
      | some pathVal =>
        let accSum2 := if cases.isEmpty then accSum else accSum ++ [JVal.obj
          [("folder_id", .int fid), ("folder_name", .str folderName),
           ("folder_path", match pathVal with | none => .null | some s => .str s),
           ("case_count", .int cases.length)]]
        let annotated := cases.map (fun c =>
          let c1 := dictSet c "_folder_name" (.str folderName)
          match pathVal with
          | some s => dictSet c1 "_folder_path" (.str s)
          | none => c1)
        let tr2 := tr ++ ptr ++ (if 1 < nSub then [Ev.sleep] else [])
        gcrLoop env fm includePath nSub pfuel pagFuel rest (accCases ++ annotated) accSum2 tr2

/-- `get_cases_recursive(client, args)` (pure data part, with trace). -/
def getCasesRecursiveF (env : Env) (projectId folderId : Int) (includePath : Bool)
    (sfuel pfuel pagFuel : Nat) : Option (JVal × List Ev) :=
  let fm := folderMap env.folders
  let tr0 := [Ev.listFolders]
  match fm folderId with
  | none => some (errObj projectId folderId, tr0)
  | some _ =>
    match collectSubtreeF env.folders folderId sfuel with
    | none => none
    | some st =>
      match gcrLoop env fm includePath st.length pfuel pagFuel (sortInts st) [] [] tr0 with
      | none => none
      | some (cases, summ, tr) =>
        some (.obj [("total_cases", .int cases.length),
                    ("total_folders_searched", .int st.length),
                    ("folder_summary", .arr summ),
                    ("cases", .arr (cases.map JVal.obj))], tr)

/-- The `for fid in sorted(subtree_ids):` loop of the folder-scoped branch
of `search_cases_recursive`: paginated search, client filters, annotation,
summary, and a sleep whenever the subtree has more than one member. -/
def scrLoop (env : Env) (fm : Int → Option Folder)
    (cf : Option (List (String × JVal))) (mm : String)
    (af : Option (List (String × List JVal))) (ik : Option String)
    (hasFilters : Bool) (nSub pfuel pagFuel : Nat) :
    List Int → List Case → List JVal → List Ev → Option (List Case × List JVal × List Ev)
  | [], accC, accS, tr => some (accC, accS, tr)
  | fid :: rest, accC, accS, tr =>
    match searchPaginatedF env (some fid) pagFuel with
    | none => none
    | some (folderCases0, ptr) =>
      let folderCases :=
        if hasFilters then applyClientFilters folderCases0 cf mm af ik else folderCases0
      let folderName := match fm fid with | some f => f.name | none => toString fid
      match getFolderPathF pfuel fm fid with
      | none => none
      | some folderPath =>
        let accS2 := if folderCases.isEmpty then accS else accS ++ [JVal.obj
          [("folder_id", .int fid), ("folder_name", .str folderName),
           ("folder_path", .str folderPath), ("match_count", .int folderCases.length)]]
        let annotated := folderCases.map (fun c =>
          dictSet (dictSet c "_folder_name" (.str folderName)) "_folder_path" (.str folderPath))
        let tr2 := tr ++ ptr ++ (if 1 < nSub then [Ev.sleep] else [])
        scrLoop env fm cf mm af ik hasFilters nSub pfuel pagFuel rest
          (accC ++ annotated) accS2 tr2

/-- Integer key for a dynamic value used in `cfid in folder_map`
(Python `True == 1` for dict keys). -/
def jvalKeyInt : JVal → Option Int
  | .int n => some n
  | .bool b => some (if b then 1 else 0)
  | _ => none

/-- Python `str(...)` on scalar values (lists/dicts never reach the
`str(cfid)` call: as unhashable dict keys they raise earlier). -/
def pyScalarStr : JVal → String
  | .null => "None"
  | .bool b => if b then "True" else "False"
  | .int n => toString n
  | .str s => s
  | _ => ""

/-- Per-case annotation of the project-wide branch of
`search_cases_recursive` (lines 425–433): indexed folder ids get the
folder's name and path, other truthy ids get `str(cfid)` and `""`, falsy
ids get `"root"` and `""`.  `none` models the `TypeError` Python raises
when an unhashable (list/dict) id meets `cfid in folder_map`, or path-walk
divergence. -/
def annotatePW (fm : Int → Option Folder) (pfuel : Nat) (c : Case) : Option Case :=
  let cfid := dictGetD c "folder_id" .null
  if jTruthy cfid then
    match cfid with
    | .arr _ => none
    | .obj _ => none
    | _ =>
      match jvalKeyInt cfid with
      | some n =>
        match fm n with
        | some f =>
          (getFolderPathF pfuel fm n).map (fun p =>
            dictSet (dictSet c "_folder_name" (.str f.name)) "_folder_path" (.str p))
        | none =>
          some (dictSet (dictSet c "_folder_name" (.str (pyScalarStr cfid)))
            "_folder_path" (.str ""))
      | none =>
        some (dictSet (dictSet c "_folder_name" (.str (pyScalarStr cfid)))
          "_folder_path" (.str ""))
  else
    some (dictSet (dictSet c "_folder_name" (.str "root")) "_folder_path" (.str ""))

/-- Is the value a Python `int`? -/
def jIsInt : JVal → Bool
  | .int _ => true
  | _ => false

/-- The project-wide `folder_summary` grouping (lines 436–449): count the
already-annotated matches by `case.get("folder_id", 0)` and emit one entry
per key in ascending order.  Restricted to integer ids — with mixed-type
ids Python's `sorted` would raise, modelled as `none`. -/
def pwSummary (fm : Int → Option Folder) (pfuel : Nat) (cases : List Case) :
    Option (List JVal) :=
  let ks := cases.map (fun c => dictGetD c "folder_id" (.int 0))
  if ks.all jIsInt then
    let ints := ks.filterMap (fun k => match k with | .int n => some n | _ => none)
    let keys := sortInts ints.dedup
    keys.mapM (fun fid =>
      let folderName := match fm fid with | some f => f.name | none => toString fid
      (getFolderPathF pfuel fm fid).map (fun p => JVal.obj
        [("folder_id", .int fid), ("folder_name", .str folderName),
         ("folder_path", .str p), ("match_count", .int (ints.count fid))]))
  else none

/-- `search_cases_recursive(client, args)` (pure data part, with trace). -/
def searchCasesRecursiveF (env : Env) (projectId : Int) (folderId : Option Int)
    (cf : Option (List (String × JVal))) (mm : String)
    (af : Option (List (String × List JVal))) (ik : Option String)
    (sfuel pfuel pagFuel : Nat) : Option (JVal × List Ev) :=
  let fm := folderMap env.folders
  let tr0 := [Ev.listFolders]
  let hasFilters := suppliedDict cf || suppliedDict af || suppliedKey ik
  match folderId with
  | some fid =>
    match fm fid with
    | none => some (errObj projectId fid, tr0)
    | some _ =>
      match collectSubtreeF env.folders fid sfuel with
      | none => none
      | some st =>
        match scrLoop env fm cf mm af ik hasFilters st.length pfuel pagFuel
            (sortInts st) [] [] tr0 with
        | none => none
        | some (found, summ, tr) =>
          some (.obj [("total_matches", .int found.length),
                      ("total_folders_searched", .int st.length),
                      ("folder_summary", .arr summ),
                      ("cases", .arr (found.map JVal.obj))], tr)
  | none =>
    match searchPaginatedF env none pagFuel with
    | none => none
    | some (allCases0, ptr) =>
      let cases1 := if hasFilters then applyClientFilters allCases0 cf mm af ik else allCases0
      match cases1.mapM (annotatePW fm pfuel) with
      | none => none
      | some annotated =>
        match pwSummary fm pfuel annotated with
        | none => none
        | some summ =>
          some (.obj [("total_matches", .int annotated.length),
                      ("total_folders_searched", .int env.folders.length),
                      ("folder_summary", .arr summ),
                      ("cases", .arr (annotated.map JVal.obj))], tr0 ++ ptr)

/-! ## Subtree collection: correctness of the stack traversal (C1) -/

lemma mem_setAdd (r : List Int) (c x : Int) :
    x ∈ setAdd r c ↔ x ∈ r ∨ x = c := by
  rw [setAdd]
  split
  · constructor
    · exact Or.inl
    · rintro (h | rfl) <;> assumption
  · simp

lemma mem_foldl_setAdd (l : List Int) (r : List Int) (x : Int) :
    x ∈ l.foldl setAdd r ↔ x ∈ r ∨ x ∈ l := by
  induction l generalizing r with
  | nil => simp
  | cons a t ih =>
    simp only [List.foldl_cons, ih, mem_setAdd, List.mem_cons]
    tauto

/-- Invariant-based partial correctness of the `while stack:` loop of
`_collect_subtree`: whenever the loop terminates, the final set consists of
the current set plus everything reachable from the stack, and everything in
it is accounted for. -/
lemma subtreeLoop_spec (cm : Int → List Int) :
    ∀ (fuel : Nat) (stack : List Int) (result S : List Int),
      subtreeLoop cm fuel result stack = some S →
      (∀ s ∈ stack, s ∈ result) →
      (∀ x ∈ result, x ∈ S) ∧
      (∀ y ∈ S, y ∈ result ∨ ∃ s ∈ stack, ReachRel cm s y) ∧
      (∀ s ∈ stack, ∀ y, ReachRel cm s y → y ∈ S) := by
  intro fuel
  induction fuel with
  | zero =>
    intro stack result S h _
    cases stack with
    | nil =>
      simp only [subtreeLoop, Option.some.injEq] at h
      subst h
      exact ⟨fun x hx => hx, fun y hy => Or.inl hy, by simp⟩
    | cons a t => simp [subtreeLoop] at h
  | succ n ih =>
    intro stack result S h hB
    cases stack with
    | nil =>
      simp only [subtreeLoop, Option.some.injEq] at h
      subst h
      exact ⟨fun x hx => hx, fun y hy => Or.inl hy, by simp⟩
    | cons current rest =>
      rw [subtreeLoop] at h
      have hcur : current ∈ result := hB current (by simp)
      have hsub : ∀ x ∈ result, x ∈ (cm current).foldl setAdd result := by
        intro x hx
        exact (mem_foldl_setAdd _ _ _).mpr (Or.inl hx)
      have hB' : ∀ s ∈ (cm current).reverse ++ rest,
          s ∈ (cm current).foldl setAdd result := by
        intro s hs
        rcases List.mem_append.mp hs with hs | hs
        · exact (mem_foldl_setAdd _ _ _).mpr (Or.inr (List.mem_reverse.mp hs))
        · exact hsub _ (hB s (List.mem_cons_of_mem _ hs))
      obtain ⟨h1, h2, h3⟩ := ih _ _ _ h hB'
      refine ⟨fun x hx => h1 x (hsub x hx), ?_, ?_⟩
      · intro y hy
        rcases h2 y hy with hy' | ⟨s, hs, hr⟩
        · rcases (mem_foldl_setAdd _ _ _).mp hy' with hy'' | hy''
          · exact Or.inl hy''
          · exact Or.inr ⟨current, by simp, Relation.ReflTransGen.single hy''⟩
        · rcases List.mem_append.mp hs with hs' | hs'
          · exact Or.inr ⟨current, by simp,
              Relation.ReflTransGen.head (List.mem_reverse.mp hs') hr⟩
          · exact Or.inr ⟨s, List.mem_cons_of_mem _ hs', hr⟩
      · intro s hs y hr
        rcases List.mem_cons.mp hs with hs' | hs'
        · subst hs'
          rcases Relation.ReflTransGen.cases_head hr with hy | ⟨c, hc, hcy⟩
          · subst hy
            exact h1 _ (hsub _ hcur)
          · exact h3 c (List.mem_append.mpr (Or.inl (List.mem_reverse.mpr hc))) y hcy
        · exact h3 s (List.mem_append.mpr (Or.inr hs')) y hr

/-- C1 (amended): whenever `_collect_subtree` terminates, its result is
exactly the set of ids reachable from `rootId` along parent→child edges
(in particular it contains `rootId`); it is the singleton `{rootId}`
exactly when no folder's normalized parent id is `rootId` — which covers
both a leaf folder and a root id that appears nowhere in the folder
list. -/
theorem collectSubtree_spec (folders : List Folder) (rootId : Int) (fuel : Nat)
    (S : List Int) (h : collectSubtreeF folders rootId fuel = some S) :
    (∀ y, y ∈ S ↔ ReachF folders rootId y) ∧
    (childrenOf folders rootId = [] → S = [rootId]) := by
  obtain ⟨h1, h2, h3⟩ :=
    subtreeLoop_spec (childrenOf folders) fuel [rootId] [rootId] S h (by simp)
  have hmem : ∀ y, y ∈ S ↔ ReachF folders rootId y := by
    intro y
    constructor
    · intro hy
      rcases h2 y hy with hy' | ⟨s, hs, hr⟩
      · rw [List.mem_singleton] at hy'
        subst hy'
        exact Relation.ReflTransGen.refl
      · rw [List.mem_singleton] at hs
        subst hs
        exact hr
    · intro hr
      exact h3 rootId (by simp) y hr
  refine ⟨hmem, ?_⟩
  intro hleaf
  rcases fuel with _ | m
  · rw [collectSubtreeF] at h
    simp [subtreeLoop] at h
  · rw [collectSubtreeF, subtreeLoop, hleaf] at h
    simp only [List.foldl_nil, List.reverse_nil, List.nil_append] at h
    simp only [subtreeLoop, Option.some.injEq] at h
    exact h.symm

/-- Folders of the worked example of the spec (§8): Root A(1)→{Child A1(2),
Child A2(3)}, Child A1(2)→Grandchild A1a(4), Root B(5)→Child B1(6). -/
def exampleFolders : List Folder :=
  [⟨1, "Root A", none⟩, ⟨2, "Child A1", some 1⟩, ⟨3, "Child A2", some 1⟩,
   ⟨4, "Grandchild A1a", some 2⟩, ⟨5, "Root B", none⟩, ⟨6, "Child B1", some 5⟩]

/-- C1 witness: on the spec's example the traversal terminates with the
set `{1, 2, 3, 4}`, which is exactly the set of ids reachable from 1, and
a leaf (folder 4) yields the singleton `{4}`. -/
theorem collectSubtree_spec_witness :
    collectSubtreeF exampleFolders 1 10 = some [1, 2, 3, 4] ∧
    (∀ y, y ∈ ([1, 2, 3, 4] : List Int) ↔ ReachF exampleFolders 1 y) ∧
    collectSubtreeF exampleFolders 4 10 = some [4] ∧
    ([4] : List Int) = [4] :=
  ⟨rfl, (collectSubtree_spec exampleFolders 1 10 _ rfl).1, rfl,
    (collectSubtree_spec exampleFolders 4 10 [4] rfl).2 rfl⟩

/-- C1 counterexample: the claim's degenerate clause fails.  Folder id 999
does not occur in the folder list `[{id: 1, parent_id: 999}]`, yet
`_collect_subtree` returns the set `{999, 1}`, not the singleton `{999}` —
the dangling folder is reachable from 999 via its parent pointer. -/
theorem collectSubtree_missing_root_counterexample :
    (([⟨1, "A", some 999⟩] : List Folder).all (fun f => f.id ≠ 999)) = true ∧
    collectSubtreeF [⟨1, "A", some 999⟩] 999 10 = some [999, 1] ∧
    (1 : Int) ∈ ([999, 1] : List Int) ∧ (1 : Int) ≠ 999 :=
  ⟨by decide, rfl, by decide, by decide⟩

/-! ## Folder paths (C9) -/

lemma pathLoopF_stop_none (fm : Int → Option Folder) (fuel : Nat) (parts : List String) :
    pathLoopF fm fuel none parts = some parts := by
  simp [pathLoopF]

lemma pathLoopF_stop_zero (fm : Int → Option Folder) (fuel : Nat) (parts : List String) :
    pathLoopF fm fuel (some 0) parts = some parts := by
  simp [pathLoopF]

lemma pathLoopF_step (fm : Int → Option Folder) (fuel : Nat) (p : Int) (parent : Folder)
    (h0 : p ≠ 0) (hp : fm p = some parent) (parts : List String) :
    pathLoopF fm (fuel + 1) (some p) parts
      = pathLoopF fm fuel parent.parent_id (parent.name :: parts) := by
  simp [pathLoopF, h0, hp]

/-- C9: `_get_folder_path` walks `parent_id` pointers upward, joining the
names root→leaf with `" / "`.  For a nesting chain root→A→B→C indexed by
`fm` the path of C is `"root / A / B / C"` (given enough fuel for the three
upward steps), and the path of an id absent from the index is `""`. -/
theorem getFolderPath_spec (fm : Int → Option Folder) (r a b c : Folder) (k : Nat)
    (hc : fm c.id = some c) (hb : fm b.id = some b) (ha : fm a.id = some a)
    (hcp : c.parent_id = some b.id) (hbp : b.parent_id = some a.id)
    (hap : a.parent_id = some r.id) (hr : fm r.id = some r)
    (hrp : r.parent_id = none ∨ r.parent_id = some 0)
    (hb0 : b.id ≠ 0) (ha0 : a.id ≠ 0) (hr0 : r.id ≠ 0) :
    getFolderPathF (k + 3) fm c.id
      = some (String.intercalate " / " [r.name, a.name, b.name, c.name]) ∧
    (∀ x, fm x = none → getFolderPathF (k + 3) fm x = some "") := by
  constructor
  · simp only [getFolderPathF, hc, hcp]
    rw [show k + 3 = (k + 2) + 1 from rfl, pathLoopF_step fm (k + 2) _ b hb0 hb, hbp,
      show k + 2 = (k + 1) + 1 from rfl, pathLoopF_step fm (k + 1) _ a ha0 ha, hap,
      pathLoopF_step fm k _ r hr0 hr]
    rcases hrp with hrp | hrp
    · rw [hrp, pathLoopF_stop_none]
      rfl
    · rw [hrp, pathLoopF_stop_zero]
      rfl
  · intro x hx
    simp [getFolderPathF, hx]

/-! ## Tree builder (C8) -/

lemma buildNodeF_folder (folders : List Folder) (st : List Int)
    (fm : Int → Option Folder) (pfuel fuel : Nat) (f : Folder) (t : TreeNode)
    (h : buildNodeF folders st fm pfuel fuel f = some t) : t.folder = f := by
  cases fuel with
  | zero => simp [buildNodeF] at h
  | succ n =>
    rw [buildNodeF] at h
    rcases hfp : getFolderPathF pfuel fm f.id with _ | fp <;> rw [hfp] at h
    · exact absurd h (by simp)
    · rcases hcs : buildNodesF folders st fm pfuel n (treeChildrenOf folders st f.id)
        with _ | cs <;> rw [hcs] at h
      · exact absurd h (by simp)
      · simp only [Option.some.injEq] at h
        subst h
        rfl

lemma buildNodesF_map (folders : List Folder) (st : List Int)
    (fm : Int → Option Folder) (pfuel : Nat) :
    ∀ (fuel : Nat) (fs : List Folder) (ts : List TreeNode),
      buildNodesF folders st fm pfuel fuel fs = some ts →
      ts.map TreeNode.folder = fs := by
  intro fuel
  induction fuel with
  | zero =>
    intro fs ts h
    cases fs with
    | nil =>
      simp only [buildNodesF, Option.some.injEq] at h
      subst h
      rfl
    | cons f fs => simp [buildNodesF] at h
  | succ n ih =>
    intro fs ts h
    cases fs with
    | nil =>
      simp only [buildNodesF, Option.some.injEq] at h
      subst h
      rfl
    | cons f fs =>
      rw [buildNodesF] at h
      rcases h1 : buildNodeF folders st fm pfuel n f with _ | t1 <;> rw [h1] at h
      · exact absurd h (by simp)
      · rcases h2 : buildNodesF folders st fm pfuel n fs with _ | ts1 <;> rw [h2] at h
        · exact absurd h (by simp)
        · simp only [Option.some.injEq] at h
          subst h
          simp only [List.map_cons, ih fs ts1 h2,
            buildNodeF_folder folders st fm pfuel n f t1 h1]

lemma mem_allNodesList (t' : TreeNode) :
    ∀ ts : List TreeNode, t' ∈ allNodesList ts ↔ ∃ t ∈ ts, t' ∈ t.allNodes := by
  intro ts
  induction ts with
  | nil => simp [allNodesList]
  | cons t ts ih =>
    rw [allNodesList]
    simp only [List.mem_append, ih, List.mem_cons]
    constructor
    · rintro (h | ⟨u, hu, hu'⟩)
      · exact ⟨t, Or.inl rfl, h⟩
      · exact ⟨u, Or.inr hu, hu'⟩
    · rintro ⟨u, hu | hu, hu'⟩
      · exact Or.inl (hu ▸ hu')
      · exact Or.inr ⟨u, hu, hu'⟩

/-- Every node of a tree produced by `build_node` has exactly the direct
children of its folder that lie in the subtree set, and its `full_path` is
the value of `_get_folder_path` on its id. -/
lemma buildNodeF_nodes_spec (folders : List Folder) (st : List Int)
    (fm : Int → Option Folder) (pfuel : Nat) :
    ∀ fuel : Nat,
      (∀ (f : Folder) (t : TreeNode),
        buildNodeF folders st fm pfuel fuel f = some t →
        ∀ t' ∈ t.allNodes,
          t'.children.map TreeNode.folder = treeChildrenOf folders st t'.folder.id ∧
          getFolderPathF pfuel fm t'.folder.id = some t'.fullPath) ∧
      (∀ (fs : List Folder) (ts : List TreeNode),
        buildNodesF folders st fm pfuel fuel fs = some ts →
        ∀ tc ∈ ts, ∀ t' ∈ tc.allNodes,
          t'.children.map TreeNode.folder = treeChildrenOf folders st t'.folder.id ∧
          getFolderPathF pfuel fm t'.folder.id = some t'.fullPath) := by
  intro fuel
  induction fuel with
  | zero =>
    constructor
    · intro f t h
      simp [buildNodeF] at h
    · intro fs ts h tc htc
      cases fs with
      | nil =>
        simp only [buildNodesF, Option.some.injEq] at h
        subst h
        exact absurd htc (List.not_mem_nil tc)
      | cons f fs => simp [buildNodesF] at h
  | succ n ih =>
    obtain ⟨ihA, ihB⟩ := ih
    constructor
    · intro f t h t' ht'
      rw [buildNodeF] at h
      rcases hfp : getFolderPathF pfuel fm f.id with _ | fp <;> rw [hfp] at h
      · exact absurd h (by simp)
      · rcases hcs : buildNodesF folders st fm pfuel n (treeChildrenOf folders st f.id)
          with _ | cs <;> rw [hcs] at h
        · exact absurd h (by simp)
        · simp only [Option.some.injEq] at h
          subst h
          rw [TreeNode.allNodes, List.mem_cons] at ht'
          rcases ht' with ht' | ht'
          · subst ht'
            exact ⟨buildNodesF_map folders st fm pfuel n _ cs hcs, hfp⟩
          · obtain ⟨tc, htc, ht'⟩ := (mem_allNodesList t' cs).mp ht'
            exact ihB _ cs hcs tc htc t' ht'
    · intro fs ts h tc htc t' ht'
      cases fs with
      | nil =>
        simp only [buildNodesF, Option.some.injEq] at h
        subst h
        exact absurd htc (List.not_mem_nil tc)
      | cons f fs =>
        rw [buildNodesF] at h
        rcases h1 : buildNodeF folders st fm pfuel n f with _ | t1 <;> rw [h1] at h
        · exact absurd h (by simp)
        · rcases h2 : buildNodesF folders st fm pfuel n fs with _ | ts1 <;> rw [h2] at h
          · exact absurd h (by simp)
          · simp only [Option.some.injEq] at h
            subst h
            rcases List.mem_cons.mp htc with htc | htc
            · subst htc
              exact ihA f tc h1 t' ht'
            · exact ihB fs ts1 h2 tc htc t' ht'

/-- C8: `_build_folder_tree` (whenever its recursion terminates) returns
`None` iff the root id is absent from the index; otherwise every node's
children list holds exactly the node's direct children present in the
subtree id set (in folder-list order), and every node's `full_path` equals
`_get_folder_path` of the node's id. -/
theorem buildFolderTree_spec (folders : List Folder) (st : List Int)
    (fm : Int → Option Folder) (rootId : Int) (pfuel fuel : Nat) (r : Option TreeNode)
    (h : buildFolderTreeF folders st fm rootId pfuel fuel = some r) :
    (r = none ↔ fm rootId = none) ∧
    (∀ t, r = some t → ∀ t' ∈ t.allNodes,
      t'.children.map TreeNode.folder = treeChildrenOf folders st t'.folder.id ∧
      getFolderPathF pfuel fm t'.folder.id = some t'.fullPath) := by
  rw [buildFolderTreeF] at h
  rcases hm : fm rootId with _ | f <;> rw [hm] at h <;> dsimp only at h
  · simp only [Option.some.injEq] at h
    subst h
    exact ⟨by simp, by simp⟩
  · rcases hb : buildNodeF folders st fm pfuel fuel f with _ | t0 <;> rw [hb] at h
    · exact absurd h (by simp)
    · simp only [Option.map_some', Option.some.injEq] at h
      subst h
      refine ⟨by simp, ?_⟩
      intro t ht
      simp only [Option.some.injEq] at ht
      subst ht
      exact (buildNodeF_nodes_spec folders st fm pfuel fuel).1 f t0 hb

/-- The tree `_build_folder_tree` produces on the spec's example for root 1. -/
def exampleTree : TreeNode :=
  .node ⟨1, "Root A", none⟩ "Root A" [
    .node ⟨2, "Child A1", some 1⟩ "Root A / Child A1" [
      .node ⟨4, "Grandchild A1a", some 2⟩ "Root A / Child A1 / Grandchild A1a" []],
    .node ⟨3, "Child A2", some 1⟩ "Root A / Child A2" []]

/-- C8 witness: on the spec's example, the builder terminates with the
expected tree for root 1 (whose nodes then satisfy the children/path
properties), and yields `None` for the absent root 99. -/
theorem buildFolderTree_spec_witness :
    buildFolderTreeF exampleFolders [4, 3, 2, 1] (folderMap exampleFolders) 1 10 10
      = some (some exampleTree) ∧
    (∀ t' ∈ exampleTree.allNodes,
      t'.children.map TreeNode.folder
        = treeChildrenOf exampleFolders [4, 3, 2, 1] t'.folder.id ∧
      getFolderPathF 10 (folderMap exampleFolders) t'.folder.id = some t'.fullPath) ∧
    buildFolderTreeF exampleFolders [4, 3, 2, 1] (folderMap exampleFolders) 99 10 10
      = some none ∧
    folderMap exampleFolders 99 = none := by
  have h1 : buildFolderTreeF exampleFolders [4, 3, 2, 1] (folderMap exampleFolders) 1 10 10
      = some (some exampleTree) := rfl
  have h2 : buildFolderTreeF exampleFolders [4, 3, 2, 1] (folderMap exampleFolders) 99 10 10
      = some none := rfl
  refine ⟨h1, ?_, h2, ?_⟩
  · exact (buildFolderTree_spec exampleFolders [4, 3, 2, 1] (folderMap exampleFolders)
      1 10 10 (some exampleTree) h1).2 exampleTree rfl
  · exact (buildFolderTree_spec exampleFolders [4, 3, 2, 1] (folderMap exampleFolders)
      99 10 10 none h2).1.mp rfl

/-! ## Compound filter engine: conjunctive composition (C2, C3, C10) -/

lemma mem_customStage (cf : Option (List (String × JVal))) (mm : String)
    (l : List Case) (c : Case) :
    c ∈ customStage cf mm l ↔ c ∈ l ∧ passCustom cf mm c = true := by
  rcases cf with _ | cfl
  · simp [customStage, passCustom]
  · by_cases he : cfl.isEmpty <;>
      simp [customStage, passCustom, he, List.mem_filter]

lemma mem_arrayStage (af : Option (List (String × List JVal)))
    (l : List Case) (c : Case) :
    c ∈ arrayStage af l ↔ c ∈ l ∧ passArrays af c = true := by
  rcases af with _ | afl
  · simp [arrayStage, passArrays]
  · by_cases he : afl.isEmpty <;>
      simp [arrayStage, passArrays, he, List.mem_filter]

lemma mem_issueStage (ik : Option String) (l : List Case) (c : Case) :
    c ∈ issueStage ik l ↔ c ∈ l ∧ passIssue ik c = true := by
  rcases ik with _ | key
  · simp [issueStage, passIssue]
  · by_cases he : key = "" <;>
      simp [issueStage, passIssue, he, List.mem_filter]

lemma mem_applyClientFilters (cases : List Case) (cf : Option (List (String × JVal)))
    (mm : String) (af : Option (List (String × List JVal))) (ik : Option String)
    (c : Case) :
    c ∈ applyClientFilters cases cf mm af ik ↔
      c ∈ cases ∧ passCustom cf mm c = true ∧ passArrays af c = true ∧
        passIssue ik c = true := by
  rw [applyClientFilters, mem_issueStage, mem_arrayStage, mem_customStage]
  tauto

/-- C2: a case appears in the output of `_apply_client_filters` iff it is
an input case passing every supplied filter kind simultaneously (an
unsupplied kind is a pass-through), and supplying no filters at all
returns the input unchanged. -/
theorem applyClientFilters_conjunctive (cases : List Case)
    (cf : Option (List (String × JVal))) (mm : String)
    (af : Option (List (String × List JVal))) (ik : Option String) :
    (∀ c, c ∈ applyClientFilters cases cf mm af ik ↔
      c ∈ cases ∧ passCustom cf mm c = true ∧ passArrays af c = true ∧
        passIssue ik c = true) ∧
    applyClientFilters cases none mm none none = cases :=
  ⟨fun c => mem_applyClientFilters cases cf mm af ik c, rfl⟩

lemma customStage_sublist (cf : Option (List (String × JVal))) (mm : String)
    (l : List Case) : (customStage cf mm l).Sublist l := by
  rcases cf with _ | cfl
  · exact List.Sublist.refl l
  · rw [customStage]
    split
    · exact List.filter_sublist l
    · exact List.Sublist.refl l

lemma arrayStage_sublist (af : Option (List (String × List JVal)))
    (l : List Case) : (arrayStage af l).Sublist l := by
  rcases af with _ | afl
  · exact List.Sublist.refl l
  · rw [arrayStage]
    split
    · exact List.filter_sublist l
    · exact List.Sublist.refl l

lemma issueStage_sublist (ik : Option String) (l : List Case) :
    (issueStage ik l).Sublist l := by
  rcases ik with _ | key
  · exact List.Sublist.refl l
  · rw [issueStage]
    split
    · exact List.filter_sublist l
    · exact List.Sublist.refl l

lemma customStage_of_pass (cf : Option (List (String × JVal))) (mm : String)
    (l : List Case) (hl : ∀ c ∈ l, passCustom cf mm c = true) :
    customStage cf mm l = l := by
  rcases cf with _ | cfl
  · rfl
  · rw [customStage]
    split
    · refine List.filter_eq_self.mpr (fun c hc => ?_)
      have := hl c hc
      rw [passCustom] at this
      split at this
      · simp_all [List.isEmpty_iff]
      · exact this
    · rfl

lemma arrayStage_of_pass (af : Option (List (String × List JVal)))
    (l : List Case) (hl : ∀ c ∈ l, passArrays af c = true) :
    arrayStage af l = l := by
  rcases af with _ | afl
  · rfl
  · rw [arrayStage]
    split
    · refine List.filter_eq_self.mpr (fun c hc => ?_)
      have := hl c hc
      rw [passArrays] at this
      split at this
      · simp_all [List.isEmpty_iff]
      · exact this
    · rfl

lemma issueStage_of_pass (ik : Option String) (l : List Case)
    (hl : ∀ c ∈ l, passIssue ik c = true) : issueStage ik l = l := by
  rcases ik with _ | key
  · rfl
  · rw [issueStage]
    split
    · refine List.filter_eq_self.mpr (fun c hc => ?_)
      have := hl c hc
      rw [passIssue] at this
      split at this
      · simp_all
      · exact this
    · rfl

/-- C10: the filter output is an order-preserving sublist of the input
(no new, duplicated or reordered elements), and filtering is idempotent:
applying the same filters to the output returns it unchanged. -/
theorem applyClientFilters_sublist_idempotent (cases : List Case)
    (cf : Option (List (String × JVal))) (mm : String)
    (af : Option (List (String × List JVal))) (ik : Option String) :
    (applyClientFilters cases cf mm af ik).Sublist cases ∧
    applyClientFilters (applyClientFilters cases cf mm af ik) cf mm af ik
      = applyClientFilters cases cf mm af ik := by
  constructor
  · exact ((issueStage_sublist ik _).trans (arrayStage_sublist af _)).trans
      (customStage_sublist cf mm cases)
  · have hpass : ∀ c ∈ applyClientFilters cases cf mm af ik,
        passCustom cf mm c = true ∧ passArrays af c = true ∧ passIssue ik c = true :=
      fun c hc => ((mem_applyClientFilters cases cf mm af ik c).mp hc).2
    rw [applyClientFilters,
      customStage_of_pass cf mm _ (fun c hc => (hpass c hc).1),
      arrayStage_of_pass af _ (fun c hc => (hpass c hc).2.1),
      issueStage_of_pass ik _ (fun c hc => (hpass c hc).2.2)]

/-- C3: under `"contains"` mode with both the expected and the case value
strings, a `custom_filters` entry is the case-insensitive substring test;
in every other combination of value kinds (either mode) it is Python
equality on the two values. -/
theorem matchCustomEntry_cases (mm : String) (c : Case) (k : String) (v : JVal) :
    (∀ vs cs, mm = "contains" → v = .str vs → dictGetD c k .null = .str cs →
      matchCustomEntry mm c k v = containsCI cs vs) ∧
    (¬(mm = "contains" ∧ jIsStr v = true ∧ jIsStr (dictGetD c k .null) = true) →
      matchCustomEntry mm c k v = pyEq (dictGetD c k .null) v) := by
  constructor
  · rintro vs cs hmm rfl hcv
    subst hmm
    simp only [matchCustomEntry, hcv]
    rfl
  · intro hn
    by_cases hmm : mm = "contains"
    · subst hmm
      cases hv : v with
      | str vs =>
        cases hcv : dictGetD c k .null with
        | str cs => exact absurd ⟨rfl, by rw [hv]; simp [jIsStr], by rw [hcv]; simp [jIsStr]⟩ hn
        | null => simp [matchCustomEntry, hcv, pyEq, jIsStr]
        | bool b => simp [matchCustomEntry, hcv, pyEq, jIsStr]
        | int n => simp [matchCustomEntry, hcv, pyEq, jIsStr]
        | arr xs => simp [matchCustomEntry, hcv, pyEq, jIsStr]
        | obj fs => simp [matchCustomEntry, hcv, pyEq, jIsStr]
      | null => simp [matchCustomEntry, jIsStr]
      | bool b => simp [matchCustomEntry, jIsStr]
      | int n => simp [matchCustomEntry, jIsStr]
      | arr xs => simp [matchCustomEntry, jIsStr]
      | obj fs => simp [matchCustomEntry, jIsStr]
    · have hbeq : (mm == "contains") = false := by
        simp [hmm]
      simp [matchCustomEntry, hbeq]

/-- C3 witness: a concrete `"contains"` match on two string values is the
case-insensitive substring test (true here), and a numeric value under
`"contains"` still compares by equality. -/
theorem matchCustomEntry_cases_witness :
    matchCustomEntry "contains" [("custom_references", .str "See IUG-1169 here")]
      "custom_references" (.str "iug-1169")
      = containsCI "See IUG-1169 here" "iug-1169" ∧
    containsCI "See IUG-1169 here" "iug-1169" = true ∧
    matchCustomEntry "contains" [("custom_priority", .int 1)]
      "custom_priority" (.int 2)
      = pyEq (.int 1) (.int 2) ∧
    pyEq (.int 1) (.int 2) = false := by
  refine ⟨(matchCustomEntry_cases "contains" [("custom_references",
      .str "See IUG-1169 here")] "custom_references" (.str "iug-1169")).1
      "iug-1169" "See IUG-1169 here" rfl rfl rfl, rfl,
    ?_, by simp [pyEq]⟩
  have h := (matchCustomEntry_cases "contains" [("custom_priority", .int 1)]
    "custom_priority" (.int 2)).2 (by simp [jIsStr])
  simpa using h

/-! ## Pagination walker (C6) -/

/-- Characterization of a terminating run of the walker loop started at
page `p` with accumulators `acc`/`tr0`: there is a page count `k ≥ 1` such
that page `p + k - 1` is the first one (from `p`) whose `next_page` is
null, the accumulated cases are the first `k` pages' results in order, and
the trace is `k` requests with a sleep between consecutive ones. -/
lemma paginateLoop_spec (fetch : Nat → PageResult) (reqEv : Nat → Ev) :
    ∀ (fuel p : Nat) (acc : List Case) (tr0 : List Ev) (cases : List Case) (tr : List Ev),
      paginateLoop fetch reqEv fuel p acc tr0 = some (cases, tr) →
      ∃ k : Nat, 0 < k ∧
        (fetch (p + k - 1)).next_page = none ∧
        (∀ i, p ≤ i → i < p + k - 1 → (fetch i).next_page ≠ none) ∧
        cases = acc ++ (List.range' p k).flatMap (fun i => (fetch i).result) ∧
        tr = tr0 ++ walkTrace reqEv p k := by
  intro fuel
  induction fuel with
  | zero =>
    intro p acc tr0 cases tr h
    simp [paginateLoop] at h
  | succ n ih =>
    intro p acc tr0 cases tr h
    rw [paginateLoop] at h
    rcases hnp : (fetch p).next_page with _ | np <;> simp only [hnp] at h
    · simp only [Option.some.injEq, Prod.mk.injEq] at h
      refine ⟨1, Nat.one_pos, by simpa using hnp, ?_, ?_, ?_⟩
      · intro i hi hi'
        omega
      · rw [← h.1]
        simp [walkTrace, List.range']
      · rw [← h.2]
        simp [walkTrace]
    · obtain ⟨k', hk', hnext, hbound, hcases, htr⟩ := ih (p + 1) _ _ _ _ h
      refine ⟨k' + 1, Nat.succ_pos k', ?_, ?_, ?_, ?_⟩
      · have : p + (k' + 1) - 1 = p + 1 + k' - 1 := by omega
        rw [this]
        exact hnext
      · intro i hi hi'
        rcases Nat.eq_or_lt_of_le hi with hi'' | hi''
        · rw [← hi'']
          simp [hnp]
        · exact hbound i hi'' (by omega)
      · rw [hcases, List.range'_succ p k' 1]
        simp
      · rw [htr]
        rcases k' with _ | k''
        · omega
        · rw [show walkTrace reqEv p (k'' + 1 + 1) =
            reqEv p :: Ev.sleep :: walkTrace reqEv (p + 1) (k'' + 1) from rfl]
          simp

lemma count_sleep_walkTrace (reqEv : Nat → Ev) (hreq : ∀ q, reqEv q ≠ Ev.sleep) :
    ∀ (k p : Nat), 0 < k → (walkTrace reqEv p k).count Ev.sleep = k - 1 := by
  intro k
  induction k with
  | zero => omega
  | succ k' ih =>
    intro p _
    rcases k' with _ | k''
    · simp [walkTrace, List.count_cons, hreq p]
    · rw [show walkTrace reqEv p (k'' + 1 + 1) =
        reqEv p :: Ev.sleep :: walkTrace reqEv (p + 1) (k'' + 1) from rfl]
      simp [List.count_cons, hreq p, ih (p + 1) (Nat.succ_pos k'')]

lemma mem_walkTrace (reqEv : Nat → Ev) (hinj : Function.Injective reqEv)
    (hreq : ∀ q, reqEv q ≠ Ev.sleep) :
    ∀ (k p q : Nat), reqEv q ∈ walkTrace reqEv p k ↔ p ≤ q ∧ q < p + k := by
  intro k
  induction k with
  | zero => intro p q; simp [walkTrace]
  | succ k' ih =>
    intro p q
    rcases k' with _ | k''
    · rw [walkTrace]
      simp only [List.mem_singleton]
      constructor
      · intro h
        have := hinj h
        omega
      · intro h
        have : q = p := by omega
        rw [this]
    · rw [show walkTrace reqEv p (k'' + 1 + 1) =
        reqEv p :: Ev.sleep :: walkTrace reqEv (p + 1) (k'' + 1) from rfl]
      simp only [List.mem_cons, ih (p + 1) q]
      constructor
      · rintro (h | h | h)
        · have := hinj h
          omega
        · exact absurd h (hreq q)
        · omega
      · intro h
        rcases Nat.eq_or_lt_of_le h.1 with h1 | h1
        · exact Or.inl (by rw [← h1])
        · exact Or.inr (Or.inr ⟨h1, by omega⟩)

/-- C6: a terminating run of the pagination walker (shared by
`client.get_all_cases` and `_search_paginated`) requests pages 1, 2, …
up to the first page whose `next_page` is null/absent, concatenates the
`result` arrays in page order, sleeps exactly between consecutive requests
(`k - 1` sleeps for `k` pages, none after the last), and requests no page
beyond the final one. -/
theorem paginationWalker_spec (fetch : Nat → PageResult) (reqEv : Nat → Ev)
    (hreq : ∀ q, reqEv q ≠ Ev.sleep) (hinj : Function.Injective reqEv)
    (fuel : Nat) (cases : List Case) (tr : List Ev)
    (h : paginateLoop fetch reqEv fuel 1 [] [] = some (cases, tr)) :
    ∃ k, 0 < k ∧ (fetch k).next_page = none ∧
      (∀ i, 1 ≤ i → i < k → (fetch i).next_page ≠ none) ∧
      cases = (List.range' 1 k).flatMap (fun i => (fetch i).result) ∧
      tr = walkTrace reqEv 1 k ∧
      tr.count Ev.sleep = k - 1 ∧
      (∀ q, reqEv q ∈ tr ↔ 1 ≤ q ∧ q ≤ k) := by
  obtain ⟨k, hk, hnext, hbound, hcases, htr⟩ := paginateLoop_spec fetch reqEv fuel 1 [] [] cases tr h
  refine ⟨k, hk, ?_, ?_, by simpa using hcases, by simpa using htr, ?_, ?_⟩
  · have : 1 + k - 1 = k := by omega
    rwa [this] at hnext
  · intro i hi hi'
    exact hbound i hi (by omega)
  · rw [htr]
    simp [count_sleep_walkTrace reqEv hreq k 1 hk]
  · intro q
    rw [htr]
    simp only [List.nil_append, mem_walkTrace reqEv hinj hreq k 1 q]
    omega

/-- A two-page remote response: page 1 has `next_page = 2`, page 2 is
final (`next_page` null). -/
def twoPageFetch : Nat → PageResult := fun p =>
  if p = 1 then ⟨[[("id", .int 1)], [("id", .int 2)]], some 2⟩
  else ⟨[[("id", .int 3)]], none⟩

/-- C6 witness: on the concrete two-page response the walker terminates
with the concatenation of both pages, the trace `request 1, sleep,
request 2`, and the characterization of `paginationWalker_spec` holds. -/
theorem paginationWalker_spec_witness :
    paginateLoop twoPageFetch (fun p => Ev.searchPage none p) 10 1 [] []
      = some ([[("id", .int 1)], [("id", .int 2)], [("id", .int 3)]],
          [Ev.searchPage none 1, Ev.sleep, Ev.searchPage none 2]) ∧
    (∃ k, 0 < k ∧ (twoPageFetch k).next_page = none ∧
      (∀ i, 1 ≤ i → i < k → (twoPageFetch i).next_page ≠ none) ∧
      ([[("id", JVal.int 1)], [("id", JVal.int 2)], [("id", JVal.int 3)]] : List Case)
        = (List.range' 1 k).flatMap (fun i => (twoPageFetch i).result) ∧
      [Ev.searchPage none 1, Ev.sleep, Ev.searchPage none 2]
        = walkTrace (fun p => Ev.searchPage none p) 1 k ∧
      ([Ev.searchPage none 1, Ev.sleep, Ev.searchPage none 2]).count Ev.sleep = k - 1 ∧
      (∀ q, Ev.searchPage none q ∈
          [Ev.searchPage none 1, Ev.sleep, Ev.searchPage none 2] ↔ 1 ≤ q ∧ q ≤ k)) := by
  refine ⟨rfl, paginationWalker_spec twoPageFetch (fun p => Ev.searchPage none p)
    (fun q h => by cases h) (fun a b h => by injection h) 10 _ _ rfl⟩

/-! ## Unknown root folder: error value, no case calls (C5) -/

/-- C5: when the requested root folder id is absent from the freshly
fetched folder index, both tools return the
`{"error": "Folder <id> not found in project <pid>"}` data value (they do
not fail), and the trace contains only the folder-listing call — zero
case-listing or search calls and no sleeps. -/
theorem folderNotFound_spec (env : Env) (projectId folderId : Int)
    (h : folderMap env.folders folderId = none) (includePath : Bool)
    (cf : Option (List (String × JVal))) (mm : String)
    (af : Option (List (String × List JVal))) (ik : Option String)
    (sfuel pfuel pagFuel : Nat) :
    getCasesRecursiveF env projectId folderId includePath sfuel pfuel pagFuel
      = some (errObj projectId folderId, [Ev.listFolders]) ∧
    searchCasesRecursiveF env projectId (some folderId) cf mm af ik sfuel pfuel pagFuel
      = some (errObj projectId folderId, [Ev.listFolders]) := by
  constructor
  · rw [getCasesRecursiveF]
    simp only [h]
  · rw [searchCasesRecursiveF]
    simp only [h]

/-- C5 witness: searching folder 999 of the example project (where it does
not exist) yields exactly `{"error": "Folder 999 not found in project 1"}`
with the folder listing as the only remote call. -/
theorem folderNotFound_spec_witness :
    folderMap exampleFolders 999 = none ∧
    errObj 1 999 = .obj [("error", .str "Folder 999 not found in project 1")] ∧
    getCasesRecursiveF ⟨exampleFolders, fun _ _ => ⟨[], none⟩, fun _ _ => ⟨[], none⟩⟩
        1 999 true 10 10 10
      = some (errObj 1 999, [Ev.listFolders]) ∧
    searchCasesRecursiveF ⟨exampleFolders, fun _ _ => ⟨[], none⟩, fun _ _ => ⟨[], none⟩⟩
        1 (some 999) none "exact" none none 10 10 10
      = some (errObj 1 999, [Ev.listFolders]) := by
  refine ⟨rfl, rfl, ?_⟩
  exact folderNotFound_spec ⟨exampleFolders, fun _ _ => ⟨[], none⟩, fun _ _ => ⟨[], none⟩⟩
    1 999 rfl true none "exact" none none 10 10 10

/-! ## Inter-folder rate-limit delay (C4) -/

lemma getAllCasesF_single (env : Env) (fid : Int) (m : Nat)
    (hs : (env.casesPages (some fid) 1).next_page = none) :
    getAllCasesF env (some fid) (m + 1)
      = some ((env.casesPages (some fid) 1).result, [Ev.listCasesPage (some fid) 1]) := by
  rw [getAllCasesF, paginateLoop]
  simp [hs]

lemma searchPaginatedF_single (env : Env) (fid : Int) (m : Nat)
    (hs : (env.searchPages (some fid) 1).next_page = none) :
    searchPaginatedF env (some fid) (m + 1)
      = some ((env.searchPages (some fid) 1).result, [Ev.searchPage (some fid) 1]) := by
  rw [searchPaginatedF, paginateLoop]
  simp [hs]

lemma count_sleep_flatBlock (g : Int → Ev) (hg : ∀ i, g i ≠ Ev.sleep)
    (c : Prop) [Decidable c] :
    ∀ ids : List Int,
      ((ids.flatMap (fun fid => g fid :: (if c then [Ev.sleep] else []))).count Ev.sleep)
        = if c then ids.length else 0 := by
  intro ids
  induction ids with
  | nil => simp
  | cons fid rest ih =>
    rw [List.flatMap_cons, List.count_append, ih]
    by_cases hc : c
    · simp only [hc, if_true, List.count_cons, List.count_nil, List.length_cons]
      have : (g fid == Ev.sleep) = false := by
        simp [hg fid]
      simp [this]
      omega
    · simp only [hc, if_false, List.count_cons, List.count_nil]
      have : (g fid == Ev.sleep) = false := by
        simp [hg fid]
      simp [this]

/-- C4 (amended): in both folder loops, whenever the subtree has more than
one member the fixed delay is slept after **every** folder's fetch —
including the final one — so a subtree of `n` folders incurs `n` delays
(not `n - 1`); a one-member subtree incurs none.  Stated for single-page
per-folder responses, so the only sleeps are the inter-folder ones. -/
theorem interFolderDelay_amended (env : Env) (fm : Int → Option Folder)
    (includePath : Bool) (cf : Option (List (String × JVal))) (mm : String)
    (af : Option (List (String × List JVal))) (ik : Option String)
    (hasFilters : Bool) (nSub pfuel pagFuel : Nat) (hpag : 0 < pagFuel)
    (hc : ∀ fid, (env.casesPages (some fid) 1).next_page = none)
    (hs : ∀ fid, (env.searchPages (some fid) 1).next_page = none) :
    (∀ ids accC accS tr0 cases summ tr,
      gcrLoop env fm includePath nSub pfuel pagFuel ids accC accS tr0
          = some (cases, summ, tr) →
      tr = tr0 ++ ids.flatMap (fun fid =>
          Ev.listCasesPage (some fid) 1 :: (if 1 < nSub then [Ev.sleep] else [])) ∧
      tr.count Ev.sleep
        = tr0.count Ev.sleep + (if 1 < nSub then ids.length else 0)) ∧
    (∀ ids accC accS tr0 cases summ tr,
      scrLoop env fm cf mm af ik hasFilters nSub pfuel pagFuel ids accC accS tr0
          = some (cases, summ, tr) →
      tr = tr0 ++ ids.flatMap (fun fid =>
          Ev.searchPage (some fid) 1 :: (if 1 < nSub then [Ev.sleep] else [])) ∧
      tr.count Ev.sleep
        = tr0.count Ev.sleep + (if 1 < nSub then ids.length else 0)) := by
  obtain ⟨m, rfl⟩ : ∃ m, pagFuel = m + 1 := ⟨pagFuel - 1, by omega⟩
  constructor
  · intro ids
    induction ids with
    | nil =>
      intro accC accS tr0 cases summ tr h
      simp only [gcrLoop, Option.some.injEq, Prod.mk.injEq] at h
      obtain ⟨-, -, rfl⟩ := h
      simp
    | cons fid rest ih =>
      intro accC accS tr0 cases summ tr h
      rw [gcrLoop, getAllCasesF_single env fid m (hc fid)] at h
      rcases hpv : (if includePath then (getFolderPathF pfuel fm fid).map some
          else some none) with _ | pathVal <;> rw [hpv] at h
      · exact absurd h (by simp)
      · obtain ⟨htr, hcount⟩ := ih _ _ _ _ _ _ h
        constructor
        · rw [htr]
          simp [List.flatMap_cons, List.append_assoc]
        · rw [hcount]
          by_cases h1 : 1 < nSub <;>
            simp [h1, List.count_append, List.count_cons] <;> omega
  · intro ids
    induction ids with
    | nil =>
      intro accC accS tr0 cases summ tr h
      simp only [scrLoop, Option.some.injEq, Prod.mk.injEq] at h
      obtain ⟨-, -, rfl⟩ := h
      simp
    | cons fid rest ih =>
      intro accC accS tr0 cases summ tr h
      rw [scrLoop, searchPaginatedF_single env fid m (hs fid)] at h
      rcases hpv : getFolderPathF pfuel fm fid with _ | folderPath <;> rw [hpv] at h
      · exact absurd h (by simp)
      · obtain ⟨htr, hcount⟩ := ih _ _ _ _ _ _ h
        constructor
        · rw [htr]
          simp [List.flatMap_cons, List.append_assoc]
        · rw [hcount]
          by_cases h1 : 1 < nSub <;>
            simp [h1, List.count_append, List.count_cons] <;> omega

/-- A two-folder project (root 1 with child 2) whose folders are all
empty; every remote case/search page is single-page. -/
def twoFolderEnv : Env :=
  ⟨[⟨1, "A", none⟩, ⟨2, "B", some 1⟩], fun _ _ => ⟨[], none⟩, fun _ _ => ⟨[], none⟩⟩

/-- C4 counterexample: running `get_cases_recursive` on a two-folder
subtree produces **two** sleeps — one after each folder fetch, including
the final one (the last trace event is a sleep) — where the claim demands
exactly `n - 1 = 1` inter-folder delays and none after the final fetch. -/
theorem interFolderDelay_counterexample :
    getCasesRecursiveF twoFolderEnv 7 1 true 10 10 10
      = some (.obj [("total_cases", .int 0), ("total_folders_searched", .int 2),
          ("folder_summary", .arr []), ("cases", .arr [])],
          [Ev.listFolders, Ev.listCasesPage (some 1) 1, Ev.sleep,
           Ev.listCasesPage (some 2) 1, Ev.sleep]) ∧
    ([Ev.listFolders, Ev.listCasesPage (some 1) 1, Ev.sleep,
      Ev.listCasesPage (some 2) 1, Ev.sleep].count Ev.sleep = 2) ∧
    (2 : Nat) ≠ 2 - 1 ∧
    ([Ev.listFolders, Ev.listCasesPage (some 1) 1, Ev.sleep,
      Ev.listCasesPage (some 2) 1, Ev.sleep].getLast? = some Ev.sleep) := by
  exact ⟨rfl, by decide, by decide, by decide⟩

/-- C4 witness (for the amended statement): on the two-folder environment
the `get_cases_recursive` loop over `[1, 2]` with `nSub = 2` sleeps after
each of the two folders, and a singleton subtree (`nSub = 1`) has no
sleep. -/
theorem interFolderDelay_amended_witness :
    gcrLoop twoFolderEnv (folderMap twoFolderEnv.folders) true 2 10 10 [1, 2] [] []
        [Ev.listFolders]
      = some ([], [], [Ev.listFolders, Ev.listCasesPage (some 1) 1, Ev.sleep,
          Ev.listCasesPage (some 2) 1, Ev.sleep]) ∧
    ([Ev.listFolders, Ev.listCasesPage (some 1) 1, Ev.sleep,
        Ev.listCasesPage (some 2) 1, Ev.sleep]
      = [Ev.listFolders] ++ [1, 2].flatMap (fun fid =>
          Ev.listCasesPage (some fid) 1 :: (if 1 < 2 then [Ev.sleep] else [])) ∧
     [Ev.listFolders, Ev.listCasesPage (some 1) 1, Ev.sleep,
        Ev.listCasesPage (some 2) 1, Ev.sleep].count Ev.sleep
      = [Ev.listFolders].count Ev.sleep + (if 1 < 2 then [1, 2].length else 0)) ∧
    gcrLoop twoFolderEnv (folderMap twoFolderEnv.folders) true 1 10 10 [1] [] []
        [Ev.listFolders]
      = some ([], [], [Ev.listFolders, Ev.listCasesPage (some 1) 1]) ∧
    ([Ev.listFolders, Ev.listCasesPage (some 1) 1]
      = [Ev.listFolders] ++ [1].flatMap (fun fid =>
          Ev.listCasesPage (some fid) 1 :: (if 1 < 1 then [Ev.sleep] else [])) ∧
     [Ev.listFolders, Ev.listCasesPage (some 1) 1].count Ev.sleep
      = [Ev.listFolders].count Ev.sleep + (if 1 < 1 then [1].length else 0)) := by
  refine ⟨rfl, ?_, rfl, ?_⟩
  · exact (interFolderDelay_amended twoFolderEnv (folderMap twoFolderEnv.folders)
      true none "exact" none none false 2 10 10 (by omega)
      (fun _ => rfl) (fun _ => rfl)).1 [1, 2] [] [] [Ev.listFolders] [] [] _ rfl
  · exact (interFolderDelay_amended twoFolderEnv (folderMap twoFolderEnv.folders)
      true none "exact" none none false 1 10 10 (by omega)
      (fun _ => rfl) (fun _ => rfl)).1 [1] [] [] [Ev.listFolders] [] [] _ rfl

/-! ## Project-wide per-case folder annotation (C7) -/

/-- C7 (amended): in project-wide search mode a case is annotated, without
erroring, as follows — a null/absent or zero `folder_id` gets
`_folder_name = "root"` and an empty `_folder_path`; a nonzero integer
`folder_id` absent from the index gets `str(folder_id)` (not `"root"`) and
an empty path; an indexed `folder_id` gets the folder's name and its full
path. -/
theorem annotatePW_spec (fm : Int → Option Folder) (pfuel : Nat) (c : Case) :
    (dictGetD c "folder_id" .null = .null →
      annotatePW fm pfuel c
        = some (dictSet (dictSet c "_folder_name" (.str "root"))
            "_folder_path" (.str ""))) ∧
    (dictGetD c "folder_id" .null = .int 0 →
      annotatePW fm pfuel c
        = some (dictSet (dictSet c "_folder_name" (.str "root"))
            "_folder_path" (.str ""))) ∧
    (∀ n : Int, n ≠ 0 → dictGetD c "folder_id" .null = .int n → fm n = none →
      annotatePW fm pfuel c
        = some (dictSet (dictSet c "_folder_name" (.str (toString n)))
            "_folder_path" (.str ""))) ∧
    (∀ (n : Int) (f : Folder) (p : String), n ≠ 0 →
      dictGetD c "folder_id" .null = .int n → fm n = some f →
      getFolderPathF pfuel fm n = some p →
      annotatePW fm pfuel c
        = some (dictSet (dictSet c "_folder_name" (.str f.name))
            "_folder_path" (.str p))) := by
  refine ⟨?_, ?_, ?_, ?_⟩
  · intro h
    simp [annotatePW, h, jTruthy]
  · intro h
    simp [annotatePW, h, jTruthy]
  · intro n hn h hfm
    have ht : jTruthy (.int n) = true := by
      simp [jTruthy, hn]
    simp [annotatePW, h, ht, jvalKeyInt, hfm, pyScalarStr]
  · intro n f p hn h hfm hp
    have ht : jTruthy (.int n) = true := by
      simp [jTruthy, hn]
    simp [annotatePW, h, ht, jvalKeyInt, hfm, hp]

/-- A project-wide search environment: no folders, one matched case whose
`folder_id` (42) is absent from the (empty) folder index. -/
def pwEnv : Env :=
  ⟨[], fun _ _ => ⟨[], none⟩,
   fun _ _ => ⟨[[("id", .int 1), ("folder_id", .int 42)]], none⟩⟩

/-- C7 counterexample: in project-wide mode a case whose nonzero
`folder_id` 42 is not in the folder index is annotated with
`_folder_name = "42"` (the id as a string), not `"root"` as the claim
states; the `_folder_path` is `""` and no error occurs. -/
theorem annotatePW_counterexample :
    searchCasesRecursiveF pwEnv 1 none none "exact" none none 10 10 10
      = some (.obj [("total_matches", .int 1), ("total_folders_searched", .int 0),
          ("folder_summary", .arr [.obj [("folder_id", .int 42),
            ("folder_name", .str "42"), ("folder_path", .str ""),
            ("match_count", .int 1)]]),
          ("cases", .arr [.obj [("id", .int 1), ("folder_id", .int 42),
            ("_folder_name", .str "42"), ("_folder_path", .str "")]])],
          [Ev.listFolders, Ev.searchPage none 1]) ∧
    dictGet [("id", JVal.int 1), ("folder_id", JVal.int 42),
        ("_folder_name", JVal.str "42"), ("_folder_path", JVal.str "")]
        "_folder_name" = some (.str "42") ∧
    JVal.str "42" ≠ JVal.str "root" := by
  refine ⟨rfl, rfl, ?_⟩
  intro h
  simp at h

/-- C7 witness (for the amended statement): concrete annotations — a null
`folder_id` and a zero `folder_id` annotate as `"root"`; the unindexed id
42 annotates as `"42"`; the indexed id 2 annotates with the folder's name
and full path. -/
theorem annotatePW_spec_witness :
    annotatePW (folderMap exampleFolders) 10 [("folder_id", .null)]
      = some [("folder_id", .null), ("_folder_name", .str "root"),
          ("_folder_path", .str "")] ∧
    annotatePW (folderMap exampleFolders) 10 [("folder_id", .int 0)]
      = some [("folder_id", .int 0), ("_folder_name", .str "root"),
          ("_folder_path", .str "")] ∧
    annotatePW (folderMap exampleFolders) 10 [("folder_id", .int 42)]
      = some [("folder_id", .int 42), ("_folder_name", .str "42"),
          ("_folder_path", .str "")] ∧
    annotatePW (folderMap exampleFolders) 10 [("folder_id", .int 2)]
      = some [("folder_id", .int 2), ("_folder_name", .str "Child A1"),
          ("_folder_path", .str "Root A / Child A1")] := by
  refine ⟨?_, ?_, ?_, ?_⟩
  · exact ((annotatePW_spec (folderMap exampleFolders) 10
      [("folder_id", .null)]).1 rfl).trans rfl
  · exact ((annotatePW_spec (folderMap exampleFolders) 10
      [("folder_id", .int 0)]).2.1 rfl).trans rfl
  · exact ((annotatePW_spec (folderMap exampleFolders) 10
      [("folder_id", .int 42)]).2.2.1 42 (by decide) rfl rfl).trans rfl
  · exact ((annotatePW_spec (folderMap exampleFolders) 10
      [("folder_id", .int 2)]).2.2.2 2 ⟨2, "Child A1", some 1⟩
      "Root A / Child A1" (by decide) rfl rfl rfl).trans rfl

/-- A root→A→B→C nesting chain used to instantiate C9. -/
def chainFolders : List Folder :=
  [⟨1, "root", none⟩, ⟨2, "A", some 1⟩, ⟨3, "B", some 2⟩, ⟨4, "C", some 3⟩]

/-- C9 witness: on the concrete chain, `path(C) = "root / A / B / C"` and
the path of the non-indexed id 42 is `""`. -/
theorem getFolderPath_spec_witness :
    folderMap chainFolders 4 = some ⟨4, "C", some 3⟩ ∧
    getFolderPathF 3 (folderMap chainFolders) 4 = some "root / A / B / C" ∧
    getFolderPathF 3 (folderMap chainFolders) 42 = some "" := by
  refine ⟨rfl, ?_, ?_⟩
  · have h := getFolderPath_spec (folderMap chainFolders)
      ⟨1, "root", none⟩ ⟨2, "A", some 1⟩ ⟨3, "B", some 2⟩ ⟨4, "C", some 3⟩ 0
      rfl rfl rfl rfl rfl rfl rfl (Or.inl rfl) (by decide) (by decide) (by decide)
    exact h.1
  · exact (getFolderPath_spec (folderMap chainFolders)
      ⟨1, "root", none⟩ ⟨2, "A", some 1⟩ ⟨3, "B", some 2⟩ ⟨4, "C", some 3⟩ 0
      rfl rfl rfl rfl rfl rfl rfl (Or.inl rfl) (by decide) (by decide) (by decide)).2 42 rfl

end Testmo
